import Mathlib

/-
  Shallow embedding of wonkystuff/TinyAudioBoot (TinyAudioBoot/TinyAudioBoot.c),
  an ATtiny85 audio bootloader, together with theorems settling the frozen
  claims about its specification.

  Modelling conventions:
  * flash is a byte-addressed map `Nat → Nat` (values are bytes, < 256 where
    the hardware guarantees it); `pgm_read_word` assembles a little-endian
    16-bit word exactly as `pgm_read_word` does on AVR;
  * `boot_page_fill` followed by `boot_page_erase`/`boot_page_write` is
    modelled as building the list of words of the page temporary buffer and
    then committing it with `writeWords`;
  * 16-bit C arithmetic (`uint16_t`, `size_t` on avr-gcc) is `Nat` with
    explicit `% 65536`; 8-bit arithmetic is `Nat` with explicit `% 256`;
  * the per-cell samples taken by `receiveFrame` (pin right after the edge,
    and pin `delayTime` ticks later) are inputs `ps ts : Nat → Bool`.
-/

-- ---------------------------------------------------------------------------
-- constants from the source
-- ---------------------------------------------------------------------------

def SPM_PAGESIZE : Nat := 64

def BOOTLOADER_ADDRESS : Nat := 0x1BC0

def RJMP : Nat := 0xC000 - 1

def BOOTLOADER_FUNC_ADDRESS : Nat := BOOTLOADER_ADDRESS - 2

def COMMAND : Nat := 0

def PAGEINDEXLOW : Nat := 1

def PAGEINDEXHIGH : Nat := 2

def LENGTHLOW : Nat := 3

def DATAPAGESTART : Nat := 7

def PAGESIZE : Nat := SPM_PAGESIZE

def FRAMESIZE : Nat := PAGESIZE + DATAPAGESTART

def NOCOMMAND : Nat := 0

def TESTCOMMAND : Nat := 1

def PROGCOMMAND : Nat := 2

def RUNCOMMAND : Nat := 3

def EEPROMCOMMAND : Nat := 4

def EXITCOMMAND : Nat := 5

-- ---------------------------------------------------------------------------
-- flash model
-- ---------------------------------------------------------------------------

abbrev Flash := Nat → Nat

/-- `pgm_read_word` on AVR: little-endian 16-bit word at a (byte) address. -/
def pgm_read_word (f : Flash) (addr : Nat) : Nat :=
  f addr % 256 + 256 * (f (addr + 1) % 256)

/-- effect of one committed `boot_page_fill` word: low byte at `addr`,
high byte at `addr + 1`. -/
def flashFillWord (f : Flash) (addr w : Nat) : Flash :=
  fun a => if a = addr then w % 256 else if a = addr + 1 then w / 256 % 256 else f a

/-- committing the page temporary buffer: the filled words land at
consecutive even addresses starting at `addr`. -/
def writeWords (f : Flash) (addr : Nat) : List Nat → Flash
  | [] => f
  | w :: ws => writeWords (flashFillWord f addr w) (addr + 2) ws

-- ---------------------------------------------------------------------------
-- pgm_write_block (TinyAudioBoot.c lines 432-460)
-- ---------------------------------------------------------------------------

/-- the `for (idx = 0; idx < SPM_PAGESIZE / 2; idx++)` loop of
`pgm_write_block`: produces the words filled into the page buffer.
`size` is a `size_t` (16-bit on avr-gcc), so `size -= 2` wraps mod 2^16. -/
def pwbLoop (f : Flash) (start_addr flash_addr : Nat) (block : List Nat)
    (size idx : Nat) : Nat → List Nat
  | 0 => []
  | n + 1 =>
    if flash_addr ≤ start_addr + 2 * idx ∧ 0 < size then
      block.headD 0 ::
        pwbLoop f start_addr flash_addr block.tail ((size + 65534) % 65536) (idx + 1) n
    else
      pgm_read_word f (start_addr + 2 * idx) ::
        pwbLoop f start_addr flash_addr block size (idx + 1) n

/-- `pgm_write_block (uint16_t flash_addr, uint16_t * block, size_t size)`:
round the address down to the page start, merge `block` with the existing
page contents word by word, then erase and rewrite the page. -/
def pgm_write_block (f : Flash) (flash_addr : Nat) (block : List Nat)
    (size : Nat) : Flash :=
  writeWords f (flash_addr / SPM_PAGESIZE * SPM_PAGESIZE)
    (pwbLoop f (flash_addr / SPM_PAGESIZE * SPM_PAGESIZE) flash_addr block size 0
      (SPM_PAGESIZE / 2))

/-- page-aligned start address computed by `pgm_write_block`. -/
def pageStart (flash_addr : Nat) : Nat := flash_addr / SPM_PAGESIZE * SPM_PAGESIZE

/-- index of the first word offset of the page whose address is at or after
`flash_addr` (the first offset eligible to take data from `block`). -/
def firstIdx (flash_addr : Nat) : Nat := (flash_addr - pageStart flash_addr + 1) / 2

-- ---------------------------------------------------------------------------
-- boot_program_page (TinyAudioBoot.c lines 471-504)
-- ---------------------------------------------------------------------------

/-- `w = *buf++; w += (*buf++) << 8`: the little-endian word `k` of the
payload buffer. -/
def bufWord (buf : Nat → Nat) (k : Nat) : Nat := buf (2 * k) + 256 * buf (2 * k + 1)

/-- the `for (i = 0; i < SPM_PAGESIZE; i += 2)` loop of `boot_program_page`:
returns the words filled into the page buffer and the final value of
`start_appl_main`.  For page 0, word 0, the jump target `w - RJMP`
(16-bit wrap) is saved and the word is replaced by a jump to the
bootloader, `0xC000 + BOOTLOADER_ADDRESS / 2 - 1`. -/
def bppLoop (page : Nat) (buf : Nat → Nat) (sam k : Nat) : Nat → List Nat × Nat
  | 0 => ([], sam)
  | n + 1 =>
    let w := bufWord buf k
    if page = 0 ∧ k = 0 then
      let r := bppLoop page buf ((w + (65536 - RJMP)) % 65536) (k + 1) n
      ((0xC000 + BOOTLOADER_ADDRESS / 2 - 1) :: r.1, r.2)
    else
      let r := bppLoop page buf sam (k + 1) n
      (w :: r.1, r.2)

/-- `boot_program_page (uint32_t page, uint8_t *buf)`: erase the page, fill
the page buffer word by word (patching the reset vector when `page = 0`),
and commit.  Returns the new flash and the new `start_appl_main`. -/
def boot_program_page (f : Flash) (sam page : Nat) (buf : Nat → Nat) :
    Flash × Nat :=
  let r := bppLoop page buf sam 0 (SPM_PAGESIZE / 2)
  (writeWords f page r.1, r.2)

-- ---------------------------------------------------------------------------
-- eeprom_write (TinyAudioBoot.c lines 270-290)
-- ---------------------------------------------------------------------------

/-- `eeprom_write(uint16_t address, uint8_t data)`: `EEAR` is set to
`address` when `address < 512` and to `511` otherwise; `EEDR = data`
(a byte) is then written there. -/
def eeprom_write (e : Nat → Nat) (address data : Nat) : Nat → Nat :=
  fun a => if a = (if address < 512 then address else 511) then data % 256 else e a

-- ---------------------------------------------------------------------------
-- receiveFrame (TinyAudioBoot.c lines 303-394), data-bit phase
-- ---------------------------------------------------------------------------

abbrev Frame := Nat → Nat

/-- reading an entry of the `uint8_t FrameData[]` array. -/
def frameByte (frame : Frame) (i : Nat) : Nat := frame i % 256

/-- pointwise update of a byte array modelled as a map. -/
def fupd (g : Nat → Nat) (i v : Nat) : Nat → Nat :=
  fun a => if a = i then v else g a

/-- the `for (n = 0; n < (FRAMESIZE * 8); n++)` bit-recovery loop of
`receiveFrame`: cell `n0` contributes bit `ps n0 ≠ ts n0`, shifted into
`FrameData[dp]` most-significant-bit first (`uint8_t`, hence `% 256`);
after 8 bits (`k` counts down from 8) `dp` advances. -/
def rfLoop (ps ts : Nat → Bool) (frame : Frame) (dp k n0 : Nat) : Nat → Frame
  | 0 => frame
  | n + 1 =>
    let b0 := frame dp * 2 % 256
    let b := if ps n0 ≠ ts n0 then b0 + 1 else b0
    if k = 1 then rfLoop ps ts (fupd frame dp b) (dp + 1) 8 (n0 + 1) n
    else rfLoop ps ts (fupd frame dp b) dp (k - 1) (n0 + 1) n

/-- `receiveFrame`: after synchronisation and the start bit, decode exactly
`FRAMESIZE * 8` bit cells into the frame buffer, and return `true`
unconditionally. -/
def receiveFrame (ps ts : Nat → Bool) (frame : Frame) : Bool × Frame :=
  (true, rfLoop ps ts frame 0 8 0 (FRAMESIZE * 8))

-- ---------------------------------------------------------------------------
-- machine state and the command dispatcher (a_main, lines 612-681)
-- ---------------------------------------------------------------------------

structure MCU where
  flash : Flash
  eeprom : Nat → Nat
  start_appl_main : Nat

/-- `runProgramm()`: persist the RAM copy of `start_appl_main` into the
flash slot at `BOOTLOADER_FUNC_ADDRESS` with `pgm_write_block`, then
transfer control to `start_appl_main` (the returned address). -/
def runProgramm (m : MCU) : MCU × Nat :=
  (⟨pgm_write_block m.flash BOOTLOADER_FUNC_ADDRESS [m.start_appl_main] 2,
    m.eeprom, m.start_appl_main⟩, m.start_appl_main)

/-- `exitBootloader()`: reload `start_appl_main` from the flash slot; if it
is non-zero, transfer control there (`some` target), otherwise return. -/
def exitBootloader (m : MCU) : MCU × Option Nat :=
  let sam := pgm_read_word m.flash BOOTLOADER_FUNC_ADDRESS
  (⟨m.flash, m.eeprom, sam⟩, if sam ≠ 0 then some sam else none)

/-- the `for (uint8_t i = 0; i < data_length; i++)` loop of the
`EEPROMCOMMAND` branch: write successive payload bytes to EEPROM. -/
def eeLoop (frame : Frame) (address : Nat) (e : Nat → Nat) (i : Nat) :
    Nat → (Nat → Nat)
  | 0 => e
  | n + 1 =>
    eeLoop frame address
      (eeprom_write e (address + i) (frameByte frame (DATAPAGESTART + i))) (i + 1) n

/-- one round of the `switch (FrameData[COMMAND])` dispatcher of `a_main`.
Returns the new machine state and `some target` when control is
transferred to the application. -/
def dispatch (m : MCU) (frame : Frame) : MCU × Option Nat :=
  if frameByte frame COMMAND = PROGCOMMAND then
    let pageNumber := (frameByte frame PAGEINDEXHIGH * 256 + frameByte frame PAGEINDEXLOW) % 65536
    let address := SPM_PAGESIZE * pageNumber % 65536
    if address < BOOTLOADER_ADDRESS then
      let r := boot_program_page m.flash m.start_appl_main address
        (fun i => frameByte frame (DATAPAGESTART + i))
      (⟨r.1, m.eeprom, r.2⟩, none)
    else (m, none)
  else if frameByte frame COMMAND = RUNCOMMAND then
    let r := runProgramm m
    (r.1, some r.2)
  else if frameByte frame COMMAND = EEPROMCOMMAND then
    let pageNumber := frameByte frame PAGEINDEXLOW
    let data_length := frameByte frame LENGTHLOW
    let address := SPM_PAGESIZE * pageNumber % 256
    exitBootloader ⟨m.flash, eeLoop frame address m.eeprom 0 data_length, m.start_appl_main⟩
  else (m, none)

/-- the `uint16_t pageNumber` local of the `PROGCOMMAND` branch:
`(FrameData[PAGEINDEXHIGH] << 8) + FrameData[PAGEINDEXLOW]` in 16-bit
arithmetic. -/
def progPageNumber (frame : Frame) : Nat :=
  (frameByte frame PAGEINDEXHIGH * 256 + frameByte frame PAGEINDEXLOW) % 65536

/-- the `uint16_t address` local of the `PROGCOMMAND` branch:
`SPM_PAGESIZE * pageNumber` in 16-bit arithmetic. -/
def progAddress (frame : Frame) : Nat :=
  SPM_PAGESIZE * progPageNumber frame % 65536

/-- outcome of one iteration of the command loop in `a_main`. -/
inductive LoopOutcome where
  | frameError : LoopOutcome
  | dispatched : MCU × Option Nat → LoopOutcome

/-- one iteration of the `while (1)` command loop of `a_main`: if
`receiveFrame` reports failure the controller enters the fast-blink
frame-error state, otherwise the frame is dispatched. -/
def commandStep (m : MCU) (ps ts : Nat → Bool) (frame : Frame) : LoopOutcome :=
  let r := receiveFrame ps ts frame
  if r.1 then LoopOutcome.dispatched (dispatch m r.2) else LoopOutcome.frameError

-- ---------------------------------------------------------------------------
-- bootloader entry decision (a_main, WONKYSTUFF branch, lines 548-570)
-- ---------------------------------------------------------------------------

/-- the `while (!(PINB & BOOTCHECKPIN)) { if (++lPress > 3000000) break; }`
loop: `pressed` is the number of loop iterations for which the boot-request
input reads asserted; returns the final value of `lPress`. -/
def entryLoop (lPress : Nat) : Nat → Nat
  | 0 => lPress
  | pressed + 1 =>
    if 3000000 < lPress + 1 then lPress + 1 else entryLoop (lPress + 1) pressed

inductive EntryDecision where
  | exitToApplication : EntryDecision
  | commandLoop : EntryDecision
  deriving DecidableEq

/-- the entry decision of `a_main`: `if (lPress < 3000000) exitBootloader();`
otherwise fall through to the command interpreter. -/
def bootEntry (pressed : Nat) : EntryDecision :=
  if entryLoop 0 pressed < 3000000 then EntryDecision.exitToApplication
  else EntryDecision.commandLoop

-- ---------------------------------------------------------------------------
-- specification-side helper definitions (for stating C7 and C10)
-- ---------------------------------------------------------------------------

/-- the decoded bit of one cell, as a numeral: 1 when the two samples
differ, 0 otherwise. -/
def bitAt (ps ts : Nat → Bool) (i : Nat) : Nat := if ps i ≠ ts i then 1 else 0

/-- most-significant-bit-first value of `c` consecutive cell bits starting
at cell `n0`. -/
def msbVal (ps ts : Nat → Bool) (n0 : Nat) : Nat → Nat
  | 0 => 0
  | c + 1 => 2 * msbVal ps ts n0 c + bitAt ps ts (n0 + c)

/-- the byte formed by eight cell bits packed most-significant-bit first. -/
def byteMSB (ps ts : Nat → Bool) (base : Nat) : Nat :=
  128 * bitAt ps ts (base + 0) + 64 * bitAt ps ts (base + 1) +
  32 * bitAt ps ts (base + 2) + 16 * bitAt ps ts (base + 3) +
  8 * bitAt ps ts (base + 4) + 4 * bitAt ps ts (base + 5) +
  2 * bitAt ps ts (base + 6) + bitAt ps ts (base + 7)

/-- the running value of a frame byte while `c` further bits are shifted in
(mirrors the shift/or steps of `rfLoop` on a single byte). -/
def packRun (v : Nat) (ps ts : Nat → Bool) (n0 : Nat) : Nat → Nat
  | 0 => v
  | c + 1 =>
    packRun (if ps n0 ≠ ts n0 then v * 2 % 256 + 1 else v * 2 % 256) ps ts (n0 + 1) c

/-- the `EEPROMCOMMAND` write loop as the spec describes it: each byte is
stored at exactly the requested address, with no capacity clamp. -/
def eeLoopD (frame : Frame) (address : Nat) (e : Nat → Nat) (i : Nat) :
    Nat → (Nat → Nat)
  | 0 => e
  | n + 1 =>
    eeLoopD frame address
      (fupd e (address + i) (frameByte frame (DATAPAGESTART + i))) (i + 1) n

-- ---------------------------------------------------------------------------
-- helper lemmas: lists and flash commits
-- ---------------------------------------------------------------------------

lemma headD_eq_getD (l : List Nat) : l.headD 0 = l.getD 0 0 := by
  cases l <;> rfl

lemma tail_getD (l : List Nat) (j : Nat) : l.tail.getD j 0 = l.getD (j + 1) 0 := by
  cases l <;> simp [List.getD]

lemma getD_lt_of_forall (l : List Nat) (b j : Nat) (h : ∀ w ∈ l, w < b)
    (hb : 0 < b) : l.getD j 0 < b := by
  rcases lt_or_ge j l.length with hj | hj
  · have : l.getD j 0 ∈ l := by
      rw [List.getD_eq_getElem l 0 hj]
      exact List.getElem_mem hj
    exact h _ this
  · rw [List.getD_eq_default l 0 hj]
    exact hb

lemma pgm_read_word_lt (f : Flash) (a : Nat) : pgm_read_word f a < 65536 := by
  unfold pgm_read_word
  have h1 : f a % 256 < 256 := Nat.mod_lt _ (by omega)
  have h2 : f (a + 1) % 256 < 256 := Nat.mod_lt _ (by omega)
  omega

lemma writeWords_outside : ∀ (ws : List Nat) (f : Flash) (a x : Nat),
    x < a ∨ a + 2 * ws.length ≤ x → writeWords f a ws x = f x := by
  intro ws
  induction ws with
  | nil => intro f a x _; rfl
  | cons w ws ih =>
    intro f a x h
    simp only [List.length_cons] at h
    show writeWords (flashFillWord f a w) (a + 2) ws x = f x
    rw [ih (flashFillWord f a w) (a + 2) x (by omega)]
    unfold flashFillWord
    have h1 : x ≠ a := by omega
    have h2 : x ≠ a + 1 := by omega
    simp [h1, h2]

lemma writeWords_lo : ∀ (ws : List Nat) (f : Flash) (a j : Nat), j < ws.length →
    writeWords f a ws (a + 2 * j) = ws.getD j 0 % 256 := by
  intro ws
  induction ws with
  | nil => intro f a j h; simp at h
  | cons w ws ih =>
    intro f a j h
    show writeWords (flashFillWord f a w) (a + 2) ws (a + 2 * j) = _
    cases j with
    | zero =>
      rw [writeWords_outside ws (flashFillWord f a w) (a + 2) (a + 2 * 0) (by omega)]
      simp [flashFillWord]
    | succ j =>
      have e : a + 2 * (j + 1) = (a + 2) + 2 * j := by ring
      rw [e, ih (flashFillWord f a w) (a + 2) j (by simp at h; omega)]
      simp [List.getD_cons_succ]

lemma writeWords_hi : ∀ (ws : List Nat) (f : Flash) (a j : Nat), j < ws.length →
    writeWords f a ws (a + 2 * j + 1) = ws.getD j 0 / 256 % 256 := by
  intro ws
  induction ws with
  | nil => intro f a j h; simp at h
  | cons w ws ih =>
    intro f a j h
    show writeWords (flashFillWord f a w) (a + 2) ws (a + 2 * j + 1) = _
    cases j with
    | zero =>
      rw [writeWords_outside ws (flashFillWord f a w) (a + 2) (a + 2 * 0 + 1) (by omega)]
      have h1 : a + 2 * 0 + 1 ≠ a := by omega
      simp [flashFillWord, h1]
    | succ j =>
      have e : a + 2 * (j + 1) + 1 = (a + 2) + 2 * j + 1 := by ring
      rw [e, ih (flashFillWord f a w) (a + 2) j (by simp at h; omega)]
      simp [List.getD_cons_succ]

-- ---------------------------------------------------------------------------
-- characterization of pgm_write_block
-- ---------------------------------------------------------------------------

lemma pwbLoop_length : ∀ (n : Nat) (f : Flash) (start fa : Nat)
    (block : List Nat) (size idx : Nat),
    (pwbLoop f start fa block size idx n).length = n := by
  intro n
  induction n with
  | zero => intros; rfl
  | succ n ih =>
    intro f start fa block size idx
    simp only [pwbLoop]
    split <;> simp [ih]

lemma pwbLoop_getD : ∀ (n : Nat) (f : Flash) (start fa : Nat)
    (block : List Nat) (size idx j : Nat),
    2 ∣ size → size < 65536 → j < n →
    (pwbLoop f start fa block size idx n).getD j 0 =
      if max idx ((fa - start + 1) / 2) ≤ idx + j ∧
         idx + j < max idx ((fa - start + 1) / 2) + size / 2
      then block.getD (idx + j - max idx ((fa - start + 1) / 2)) 0
      else pgm_read_word f (start + 2 * (idx + j)) := by
  intro n
  induction n with
  | zero => intro f start fa block size idx j _ _ hj; omega
  | succ n ih =>
    intro f start fa block size idx j hdvd hlt hj
    by_cases hc : fa ≤ start + 2 * idx ∧ 0 < size
    · have hmax : max idx ((fa - start + 1) / 2) = idx := by omega
      rw [show pwbLoop f start fa block size idx (n + 1)
            = block.headD 0 ::
                pwbLoop f start fa block.tail ((size + 65534) % 65536) (idx + 1) n
          from by simp only [pwbLoop, if_pos hc]]
      rw [hmax]
      cases j with
      | zero =>
        rw [List.getD_cons_zero, if_pos (by omega), headD_eq_getD,
          show idx + 0 - idx = 0 from by omega]
      | succ j =>
        rw [List.getD_cons_succ]
        have hsz : (size + 65534) % 65536 = size - 2 := by omega
        rw [hsz, ih f start fa block.tail (size - 2) (idx + 1) j (by omega) (by omega) (by omega)]
        have hmax2 : max (idx + 1) ((fa - start + 1) / 2) = idx + 1 := by omega
        rw [hmax2, show idx + 1 + j = idx + (j + 1) from by omega]
        by_cases hcc : j + 1 < size / 2
        · rw [if_pos (by omega), if_pos (by omega)]
          rw [show idx + (j + 1) - (idx + 1) = j from by omega, tail_getD,
            show idx + (j + 1) - idx = j + 1 from by omega]
        · rw [if_neg (by omega), if_neg (by omega)]
    · rw [show pwbLoop f start fa block size idx (n + 1)
            = pgm_read_word f (start + 2 * idx) ::
                pwbLoop f start fa block size (idx + 1) n
          from by simp only [pwbLoop, if_neg hc]]
      cases j with
      | zero =>
        rw [List.getD_cons_zero, if_neg (by omega), show idx + 0 = idx from by omega]
      | succ j =>
        rw [List.getD_cons_succ,
          ih f start fa block size (idx + 1) j hdvd hlt (by omega),
          show idx + 1 + j = idx + (j + 1) from by omega]
        by_cases hfa : fa ≤ start + 2 * idx
        · have hsz : size = 0 := by omega
          have hmax : max idx ((fa - start + 1) / 2) = idx := by omega
          have hmax2 : max (idx + 1) ((fa - start + 1) / 2) = idx + 1 := by omega
          rw [hmax, hmax2, hsz]
          rw [if_neg (by omega), if_neg (by omega)]
        · have hmax : max idx ((fa - start + 1) / 2) = (fa - start + 1) / 2 := by omega
          have hmax2 : max (idx + 1) ((fa - start + 1) / 2) = (fa - start + 1) / 2 := by
            omega
          rw [hmax, hmax2]

/-- the merged word committed at word offset `j` of the page rewritten by
`pgm_write_block`. -/
lemma pgm_write_block_word (f : Flash) (fa : Nat) (block : List Nat)
    (size : Nat) (hdvd : 2 ∣ size) (hlt : size < 65536) (j : Nat) (hj : j < 32) :
    pgm_read_word (pgm_write_block f fa block size) (pageStart fa + 2 * j) =
      if firstIdx fa ≤ j ∧ j < firstIdx fa + size / 2
      then block.getD (j - firstIdx fa) 0 % 65536
      else pgm_read_word f (pageStart fa + 2 * j) := by
  have hlen : (pwbLoop f (pageStart fa) fa block size 0 (SPM_PAGESIZE / 2)).length = 32 :=
    pwbLoop_length _ _ _ _ _ _ _
  have hjlen : j < (pwbLoop f (pageStart fa) fa block size 0 (SPM_PAGESIZE / 2)).length := by
    omega
  have hlo := writeWords_lo _ f (pageStart fa) j hjlen
  have hhi := writeWords_hi _ f (pageStart fa) j hjlen
  have hword := pwbLoop_getD (SPM_PAGESIZE / 2) f (pageStart fa) fa block size 0 j
    hdvd hlt (by norm_num [SPM_PAGESIZE] at hj ⊢; omega)
  have hmax : max 0 ((fa - pageStart fa + 1) / 2) = firstIdx fa := by
    unfold firstIdx
    omega
  rw [show (0 : Nat) + j = j from by omega, hmax] at hword
  have hps : fa / SPM_PAGESIZE * SPM_PAGESIZE = pageStart fa := rfl
  unfold pgm_write_block
  rw [hps]
  unfold pgm_read_word
  unfold pgm_read_word at hword
  rw [hlo, hhi, hword]
  by_cases hcc : firstIdx fa ≤ j ∧ j < firstIdx fa + size / 2
  · rw [if_pos hcc, if_pos hcc]
    omega
  · rw [if_neg hcc, if_neg hcc]
    omega

/-- bytes of a word offset not taken from `block` are re-committed with
their previous values (modulo the byte width). -/
lemma pgm_write_block_keep (f : Flash) (fa : Nat) (block : List Nat)
    (size : Nat) (hdvd : 2 ∣ size) (hlt : size < 65536) (j : Nat) (hj : j < 32)
    (hcc : ¬(firstIdx fa ≤ j ∧ j < firstIdx fa + size / 2)) :
    pgm_write_block f fa block size (pageStart fa + 2 * j) =
        f (pageStart fa + 2 * j) % 256 ∧
    pgm_write_block f fa block size (pageStart fa + 2 * j + 1) =
        f (pageStart fa + 2 * j + 1) % 256 := by
  have hlen : (pwbLoop f (pageStart fa) fa block size 0 (SPM_PAGESIZE / 2)).length = 32 :=
    pwbLoop_length _ _ _ _ _ _ _
  have hjlen : j < (pwbLoop f (pageStart fa) fa block size 0 (SPM_PAGESIZE / 2)).length := by
    omega
  have hlo := writeWords_lo _ f (pageStart fa) j hjlen
  have hhi := writeWords_hi _ f (pageStart fa) j hjlen
  have hword := pwbLoop_getD (SPM_PAGESIZE / 2) f (pageStart fa) fa block size 0 j
    hdvd hlt (by norm_num [SPM_PAGESIZE] at hj ⊢; omega)
  have hmax : max 0 ((fa - pageStart fa + 1) / 2) = firstIdx fa := by
    unfold firstIdx
    omega
  rw [show (0 : Nat) + j = j from by omega, hmax, if_neg hcc] at hword
  have hps : fa / SPM_PAGESIZE * SPM_PAGESIZE = pageStart fa := rfl
  unfold pgm_write_block
  rw [hps]
  constructor
  · rw [hlo, hword]
    unfold pgm_read_word
    omega
  · rw [hhi, hword]
    unfold pgm_read_word
    omega

/-- `pgm_write_block` leaves every byte outside the rewritten page alone. -/
lemma pgm_write_block_outside (f : Flash) (fa : Nat) (block : List Nat)
    (size a : Nat) (ha : a < pageStart fa ∨ pageStart fa + SPM_PAGESIZE ≤ a) :
    pgm_write_block f fa block size a = f a := by
  have hlen : (pwbLoop f (pageStart fa) fa block size 0 (SPM_PAGESIZE / 2)).length = 32 :=
    pwbLoop_length _ _ _ _ _ _ _
  have hps : fa / SPM_PAGESIZE * SPM_PAGESIZE = pageStart fa := rfl
  unfold pgm_write_block
  rw [hps]
  apply writeWords_outside
  rw [hlen]
  norm_num [SPM_PAGESIZE] at ha ⊢
  omega

-- ---------------------------------------------------------------------------
-- characterization of boot_program_page
-- ---------------------------------------------------------------------------

lemma bppLoop_length : ∀ (n : Nat) (page : Nat) (buf : Nat → Nat) (sam k : Nat),
    (bppLoop page buf sam k n).1.length = n := by
  intro n
  induction n with
  | zero => intros; rfl
  | succ n ih =>
    intro page buf sam k
    simp only [bppLoop]
    split <;> simp [ih]

lemma bppLoop_getD : ∀ (n : Nat) (page : Nat) (buf : Nat → Nat) (sam k j : Nat),
    j < n →
    (bppLoop page buf sam k n).1.getD j 0 =
      if page = 0 ∧ k + j = 0 then 0xC000 + BOOTLOADER_ADDRESS / 2 - 1
      else bufWord buf (k + j) := by
  intro n
  induction n with
  | zero => intro page buf sam k j hj; omega
  | succ n ih =>
    intro page buf sam k j hj
    by_cases hc : page = 0 ∧ k = 0
    · rw [show bppLoop page buf sam k (n + 1)
            = ((0xC000 + BOOTLOADER_ADDRESS / 2 - 1) ::
                (bppLoop page buf ((bufWord buf k + (65536 - RJMP)) % 65536) (k + 1) n).1,
               (bppLoop page buf ((bufWord buf k + (65536 - RJMP)) % 65536) (k + 1) n).2)
          from by simp only [bppLoop, if_pos hc]]
      cases j with
      | zero => rw [List.getD_cons_zero, if_pos (by omega)]
      | succ j =>
        rw [List.getD_cons_succ, ih page buf _ (k + 1) j (by omega),
          if_neg (by omega), if_neg (by omega), show k + 1 + j = k + (j + 1) from by omega]
    · rw [show bppLoop page buf sam k (n + 1)
            = (bufWord buf k :: (bppLoop page buf sam (k + 1) n).1,
               (bppLoop page buf sam (k + 1) n).2)
          from by simp only [bppLoop, if_neg hc]]
      cases j with
      | zero =>
        rw [List.getD_cons_zero, if_neg (by omega), show k + 0 = k from by omega]
      | succ j =>
        rw [List.getD_cons_succ, ih page buf sam (k + 1) j (by omega),
          show k + 1 + j = k + (j + 1) from by omega]

lemma bppLoop_sam : ∀ (n : Nat) (page : Nat) (buf : Nat → Nat) (sam k : Nat),
    (bppLoop page buf sam k n).2 =
      if page = 0 ∧ k = 0 ∧ 0 < n then (bufWord buf 0 + (65536 - RJMP)) % 65536
      else sam := by
  intro n
  induction n with
  | zero =>
    intro page buf sam k
    rw [if_neg (by omega)]
    rfl
  | succ n ih =>
    intro page buf sam k
    by_cases hc : page = 0 ∧ k = 0
    · rw [show bppLoop page buf sam k (n + 1)
            = ((0xC000 + BOOTLOADER_ADDRESS / 2 - 1) ::
                (bppLoop page buf ((bufWord buf k + (65536 - RJMP)) % 65536) (k + 1) n).1,
               (bppLoop page buf ((bufWord buf k + (65536 - RJMP)) % 65536) (k + 1) n).2)
          from by simp only [bppLoop, if_pos hc]]
      show (bppLoop page buf _ (k + 1) n).2 = _
      rw [ih page buf _ (k + 1), if_neg (by omega), if_pos (by omega), hc.2]
    · rw [show bppLoop page buf sam k (n + 1)
            = (bufWord buf k :: (bppLoop page buf sam (k + 1) n).1,
               (bppLoop page buf sam (k + 1) n).2)
          from by simp only [bppLoop, if_neg hc]]
      show (bppLoop page buf sam (k + 1) n).2 = _
      rw [ih page buf sam (k + 1), if_neg (by omega), if_neg (by omega)]

/-- the word committed at word offset `j` of the page written by
`boot_program_page`: the payload word, except that word 0 of page 0 is
replaced by the jump to the bootloader. -/
lemma boot_program_page_word (f : Flash) (sam page : Nat) (buf : Nat → Nat)
    (j : Nat) (hj : j < 32) :
    pgm_read_word (boot_program_page f sam page buf).1 (page + 2 * j) =
      (if page = 0 ∧ j = 0 then 0xC000 + BOOTLOADER_ADDRESS / 2 - 1
       else bufWord buf j) % 65536 := by
  have hlen : (bppLoop page buf sam 0 (SPM_PAGESIZE / 2)).1.length = 32 :=
    bppLoop_length _ _ _ _ _
  have hjlen : j < (bppLoop page buf sam 0 (SPM_PAGESIZE / 2)).1.length := by omega
  have hlo := writeWords_lo _ f page j hjlen
  have hhi := writeWords_hi _ f page j hjlen
  have hword := bppLoop_getD (SPM_PAGESIZE / 2) page buf sam 0 j
    (by norm_num [SPM_PAGESIZE] at hj ⊢; omega)
  rw [show (0 : Nat) + j = j from by omega] at hword
  show pgm_read_word (writeWords f page (bppLoop page buf sam 0 (SPM_PAGESIZE / 2)).1)
      (page + 2 * j) = _
  unfold pgm_read_word
  rw [hlo, hhi, hword]
  by_cases hc : page = 0 ∧ j = 0
  · rw [if_pos hc]
    omega
  · rw [if_neg hc]
    omega

/-- `boot_program_page` leaves every byte outside the written page alone. -/
lemma boot_program_page_outside (f : Flash) (sam page : Nat) (buf : Nat → Nat)
    (a : Nat) (ha : a < page ∨ page + SPM_PAGESIZE ≤ a) :
    (boot_program_page f sam page buf).1 a = f a := by
  have hlen : (bppLoop page buf sam 0 (SPM_PAGESIZE / 2)).1.length = 32 :=
    bppLoop_length _ _ _ _ _
  show writeWords f page (bppLoop page buf sam 0 (SPM_PAGESIZE / 2)).1 a = f a
  apply writeWords_outside
  rw [hlen]
  norm_num [SPM_PAGESIZE] at ha ⊢
  omega

/-- the `start_appl_main` value produced by `boot_program_page`: for page 0
it is the 16-bit difference between payload word 0 and `RJMP`. -/
lemma boot_program_page_sam (f : Flash) (sam page : Nat) (buf : Nat → Nat) :
    (boot_program_page f sam page buf).2 =
      if page = 0 then (bufWord buf 0 + (65536 - RJMP)) % 65536 else sam := by
  show (bppLoop page buf sam 0 (SPM_PAGESIZE / 2)).2 = _
  rw [bppLoop_sam]
  by_cases hp : page = 0
  · rw [if_pos (by norm_num [SPM_PAGESIZE]; omega), if_pos hp]
  · rw [if_neg (by omega), if_neg hp]

-- ---------------------------------------------------------------------------
-- helper lemmas: byte-map updates
-- ---------------------------------------------------------------------------

lemma fupd_self (g : Nat → Nat) (i v : Nat) : fupd g i v i = v := by
  simp [fupd]

lemma fupd_ne (g : Nat → Nat) (i v a : Nat) (h : a ≠ i) : fupd g i v a = g a := by
  simp [fupd, h]

lemma fupd_fupd (g : Nat → Nat) (i v v2 : Nat) :
    fupd (fupd g i v) i v2 = fupd g i v2 := by
  funext a
  by_cases h : a = i <;> simp [fupd, h]

-- ---------------------------------------------------------------------------
-- characterization of the receiveFrame bit-recovery loop
-- ---------------------------------------------------------------------------

lemma rfLoop_congr : ∀ (n : Nat) (ps ts ps2 ts2 : Nat → Bool) (frame : Frame)
    (dp k n0 : Nat),
    (∀ i, n0 ≤ i → i < n0 + n → ps i = ps2 i ∧ ts i = ts2 i) →
    rfLoop ps ts frame dp k n0 n = rfLoop ps2 ts2 frame dp k n0 n := by
  intro n
  induction n with
  | zero => intros; rfl
  | succ n ih =>
    intro ps ts ps2 ts2 frame dp k n0 h
    simp only [rfLoop]
    rw [(h n0 (by omega) (by omega)).1, (h n0 (by omega) (by omega)).2]
    split
    · exact ih ps ts ps2 ts2 _ _ _ _ (fun i h1 h2 => h i (by omega) (by omega))
    · exact ih ps ts ps2 ts2 _ _ _ _ (fun i h1 h2 => h i (by omega) (by omega))

lemma rfLoop_succ_eq (ps ts : Nat → Bool) (frame : Frame) (dp k n0 n : Nat) :
    rfLoop ps ts frame dp k n0 (n + 1) =
      if k = 1 then
        rfLoop ps ts
          (fupd frame dp (if ps n0 ≠ ts n0 then frame dp * 2 % 256 + 1 else frame dp * 2 % 256))
          (dp + 1) 8 (n0 + 1) n
      else
        rfLoop ps ts
          (fupd frame dp (if ps n0 ≠ ts n0 then frame dp * 2 % 256 + 1 else frame dp * 2 % 256))
          dp (k - 1) (n0 + 1) n := rfl

lemma packRun_zero (v : Nat) (ps ts : Nat → Bool) (n0 : Nat) :
    packRun v ps ts n0 0 = v := rfl

lemma packRun_succ (v : Nat) (ps ts : Nat → Bool) (n0 c : Nat) :
    packRun v ps ts n0 (c + 1) =
      packRun (if ps n0 ≠ ts n0 then v * 2 % 256 + 1 else v * 2 % 256) ps ts (n0 + 1) c := rfl

lemma msbVal_zero (ps ts : Nat → Bool) (n0 : Nat) : msbVal ps ts n0 0 = 0 := rfl

lemma msbVal_succ (ps ts : Nat → Bool) (n0 c : Nat) :
    msbVal ps ts n0 (c + 1) = 2 * msbVal ps ts n0 c + bitAt ps ts (n0 + c) := rfl

lemma rfLoop_finish : ∀ (k : Nat) (ps ts : Nat → Bool) (frame : Frame)
    (dp n0 rest : Nat),
    rfLoop ps ts frame dp (k + 1) n0 (rest + (k + 1)) =
      rfLoop ps ts (fupd frame dp (packRun (frame dp) ps ts n0 (k + 1)))
        (dp + 1) 8 (n0 + (k + 1)) rest := by
  intro k
  induction k with
  | zero =>
    intro ps ts frame dp n0 rest
    norm_num
    rw [rfLoop_succ_eq, if_pos rfl, packRun_succ, packRun_zero]
  | succ k ih =>
    intro ps ts frame dp n0 rest
    rw [show rest + (k + 1 + 1) = (rest + (k + 1)) + 1 from by omega, rfLoop_succ_eq,
      if_neg (by omega), show k + 1 + 1 - 1 = k + 1 from by omega,
      ih ps ts
        (fupd frame dp (if ps n0 ≠ ts n0 then frame dp * 2 % 256 + 1 else frame dp * 2 % 256))
        dp (n0 + 1) rest,
      fupd_self, fupd_fupd, show n0 + 1 + (k + 1) = n0 + (k + 1 + 1) from by omega,
      packRun_succ (frame dp) ps ts n0 (k + 1)]

lemma rfLoop_step8 (ps ts : Nat → Bool) (frame : Frame) (dp n0 rest : Nat) :
    rfLoop ps ts frame dp 8 n0 (rest + 8) =
      rfLoop ps ts (fupd frame dp (packRun (frame dp) ps ts n0 8))
        (dp + 1) 8 (n0 + 8) rest := by
  have h := rfLoop_finish 7 ps ts frame dp n0 rest
  norm_num at h
  exact h

lemma rfLoop_run : ∀ (m : Nat) (ps ts : Nat → Bool) (frame : Frame)
    (dp n0 j : Nat),
    rfLoop ps ts frame dp 8 n0 (8 * m) j =
      if dp ≤ j ∧ j < dp + m then packRun (frame j) ps ts (n0 + 8 * (j - dp)) 8
      else frame j := by
  intro m
  induction m with
  | zero =>
    intro ps ts frame dp n0 j
    rw [if_neg (by omega)]
    rfl
  | succ m ih =>
    intro ps ts frame dp n0 j
    rw [show 8 * (m + 1) = 8 * m + 8 from by ring, rfLoop_step8, ih]
    by_cases h1 : j = dp
    · rw [if_neg (by omega), if_pos (by omega), h1, fupd_self,
        show dp - dp = 0 from by omega]
      norm_num
    · by_cases h2 : dp + 1 ≤ j ∧ j < dp + 1 + m
      · rw [if_pos h2, if_pos (by omega), fupd_ne _ _ _ _ h1,
          show n0 + 8 + 8 * (j - (dp + 1)) = n0 + 8 * (j - dp) from by omega]
      · rw [if_neg h2, if_neg (by omega), fupd_ne _ _ _ _ h1]

lemma msbVal_shift : ∀ (c : Nat) (ps ts : Nat → Bool) (n0 : Nat),
    msbVal ps ts n0 (c + 1) = bitAt ps ts n0 * 2 ^ c + msbVal ps ts (n0 + 1) c := by
  intro c
  induction c with
  | zero =>
    intro ps ts n0
    rw [msbVal_succ, msbVal_zero, msbVal_zero]
    norm_num
  | succ c ih =>
    intro ps ts n0
    rw [msbVal_succ ps ts n0 (c + 1), msbVal_succ ps ts (n0 + 1) c, ih,
      show n0 + (c + 1) = n0 + 1 + c from by omega, pow_succ]
    ring

lemma packRun_val : ∀ (c : Nat) (v : Nat) (ps ts : Nat → Bool) (n0 : Nat),
    packRun v ps ts n0 (c + 1) = (v * 2 ^ (c + 1) + msbVal ps ts n0 (c + 1)) % 256 := by
  intro c
  induction c with
  | zero =>
    intro v ps ts n0
    rw [packRun_succ, packRun_zero, msbVal_succ, msbVal_zero,
      show (2 : Nat) ^ (0 + 1) = 2 from by norm_num, show n0 + 0 = n0 from by omega]
    unfold bitAt
    by_cases hb : ps n0 ≠ ts n0
    · rw [if_pos hb, if_pos hb]
      omega
    · rw [if_neg hb, if_neg hb]
      omega
  | succ c ih =>
    intro v ps ts n0
    rw [packRun_succ v ps ts n0 (c + 1),
      ih (if ps n0 ≠ ts n0 then v * 2 % 256 + 1 else v * 2 % 256) ps ts (n0 + 1),
      msbVal_shift (c + 1) ps ts n0]
    have hb : (if ps n0 ≠ ts n0 then v * 2 % 256 + 1 else v * 2 % 256)
        = v * 2 % 256 + bitAt ps ts n0 := by
      unfold bitAt
      by_cases h : ps n0 ≠ ts n0
      · rw [if_pos h, if_pos h]
      · rw [if_neg h, if_neg h]
        omega
    rw [hb]
    have h1 : (v * 2 % 256 + bitAt ps ts n0) * 2 ^ (c + 1) + msbVal ps ts (n0 + 1) (c + 1)
        ≡ (v * 2 + bitAt ps ts n0) * 2 ^ (c + 1) + msbVal ps ts (n0 + 1) (c + 1) [MOD 256] :=
      Nat.ModEq.add_right _ (Nat.ModEq.mul_right _
        (Nat.ModEq.add_right _ (Nat.mod_modEq _ 256)))
    have h2 : (v * 2 + bitAt ps ts n0) * 2 ^ (c + 1) + msbVal ps ts (n0 + 1) (c + 1)
        = v * 2 ^ (c + 1 + 1) + (bitAt ps ts n0 * 2 ^ (c + 1) + msbVal ps ts (n0 + 1) (c + 1)) := by
      rw [pow_succ]
      ring
    rw [← h2]
    exact h1

lemma msbVal_eight (ps ts : Nat → Bool) (n0 : Nat) :
    msbVal ps ts n0 8 = byteMSB ps ts n0 := by
  have h : msbVal ps ts n0 8 =
      2 * (2 * (2 * (2 * (2 * (2 * (2 * (2 * 0 + bitAt ps ts (n0 + 0))
        + bitAt ps ts (n0 + 1)) + bitAt ps ts (n0 + 2)) + bitAt ps ts (n0 + 3))
        + bitAt ps ts (n0 + 4)) + bitAt ps ts (n0 + 5)) + bitAt ps ts (n0 + 6))
        + bitAt ps ts (n0 + 7) := rfl
  rw [h]
  unfold byteMSB
  ring

lemma bitAt_le_one (ps ts : Nat → Bool) (i : Nat) : bitAt ps ts i ≤ 1 := by
  unfold bitAt
  split <;> omega

lemma byteMSB_lt (ps ts : Nat → Bool) (base : Nat) : byteMSB ps ts base < 256 := by
  have h0 := bitAt_le_one ps ts (base + 0)
  have h1 := bitAt_le_one ps ts (base + 1)
  have h2 := bitAt_le_one ps ts (base + 2)
  have h3 := bitAt_le_one ps ts (base + 3)
  have h4 := bitAt_le_one ps ts (base + 4)
  have h5 := bitAt_le_one ps ts (base + 5)
  have h6 := bitAt_le_one ps ts (base + 6)
  have h7 := bitAt_le_one ps ts (base + 7)
  unfold byteMSB
  omega

lemma packRun_eight (v : Nat) (ps ts : Nat → Bool) (n0 : Nat) :
    packRun v ps ts n0 8 = byteMSB ps ts n0 := by
  have h := packRun_val 7 v ps ts n0
  norm_num at h
  rw [h, msbVal_eight]
  have hlt := byteMSB_lt ps ts n0
  omega

-- ---------------------------------------------------------------------------
-- helper lemmas: the boot-entry dwell loop
-- ---------------------------------------------------------------------------

lemma entryLoop_eq : ∀ (pressed lPress : Nat), lPress ≤ 3000000 →
    entryLoop lPress pressed = min (lPress + pressed) 3000001 := by
  intro pressed
  induction pressed with
  | zero =>
    intro l h
    simp only [entryLoop]
    omega
  | succ p ih =>
    intro l h
    simp only [entryLoop]
    by_cases hc : 3000000 < l + 1
    · rw [if_pos hc]
      omega
    · rw [if_neg hc, ih (l + 1) (by omega)]
      omega

-- ---------------------------------------------------------------------------
-- helper lemmas: the EEPROMCOMMAND write loop
-- ---------------------------------------------------------------------------

lemma frameByte_lt (frame : Frame) (i : Nat) : frameByte frame i < 256 :=
  Nat.mod_lt _ (by omega)

lemma eeLoop_eq_direct : ∀ (n : Nat) (frame : Frame) (address : Nat)
    (e : Nat → Nat) (i : Nat),
    (∀ k, k < n → address + (i + k) < 512) →
    eeLoop frame address e i n = eeLoopD frame address e i n := by
  intro n
  induction n with
  | zero => intros; rfl
  | succ n ih =>
    intro frame address e i h
    simp only [eeLoop, eeLoopD]
    have h0 : address + i < 512 := by
      have := h 0 (by omega)
      omega
    have he : eeprom_write e (address + i) (frameByte frame (DATAPAGESTART + i))
        = fupd e (address + i) (frameByte frame (DATAPAGESTART + i)) := by
      funext a
      unfold eeprom_write fupd
      rw [if_pos h0]
      by_cases ha : a = address + i
      · rw [if_pos ha, if_pos ha]
        unfold frameByte
        omega
      · rw [if_neg ha, if_neg ha]
    rw [he]
    exact ih frame address _ (i + 1) (fun k hk => by
      have := h (k + 1) (by omega)
      omega)

/-- addresses touched by `eeLoopD` lie in `[address + i, address + i + n)`;
everything else is untouched. -/
lemma eeLoopD_outside : ∀ (n : Nat) (frame : Frame) (address : Nat)
    (e : Nat → Nat) (i a : Nat),
    (a < address + i ∨ address + i + n ≤ a) →
    eeLoopD frame address e i n a = e a := by
  intro n
  induction n with
  | zero => intros; rfl
  | succ n ih =>
    intro frame address e i a ha
    simp only [eeLoopD]
    rw [ih frame address _ (i + 1) a (by omega), fupd_ne _ _ _ _ (by omega)]

-- ---------------------------------------------------------------------------
-- helper lemmas: the dispatcher branches
-- ---------------------------------------------------------------------------

lemma dispatch_prog_eq (m : MCU) (frame : Frame)
    (hcmd : frameByte frame COMMAND = PROGCOMMAND) :
    dispatch m frame =
      if progAddress frame < BOOTLOADER_ADDRESS then
        ((⟨(boot_program_page m.flash m.start_appl_main (progAddress frame)
              (fun i => frameByte frame (DATAPAGESTART + i))).1, m.eeprom,
           (boot_program_page m.flash m.start_appl_main (progAddress frame)
              (fun i => frameByte frame (DATAPAGESTART + i))).2⟩ : MCU), none)
      else (m, none) := by
  unfold dispatch progAddress progPageNumber
  rw [hcmd, if_pos rfl]

lemma dispatch_run_eq (m : MCU) (frame : Frame)
    (hcmd : frameByte frame COMMAND = RUNCOMMAND) :
    dispatch m frame =
      ((⟨pgm_write_block m.flash BOOTLOADER_FUNC_ADDRESS [m.start_appl_main] 2,
         m.eeprom, m.start_appl_main⟩ : MCU), some m.start_appl_main) := by
  unfold dispatch
  rw [hcmd, if_neg (by decide), if_pos rfl]
  rfl

lemma dispatch_eeprom_eq (m : MCU) (frame : Frame)
    (hcmd : frameByte frame COMMAND = EEPROMCOMMAND) :
    dispatch m frame =
      exitBootloader ⟨m.flash,
        eeLoop frame (SPM_PAGESIZE * frameByte frame PAGEINDEXLOW % 256) m.eeprom 0
          (frameByte frame LENGTHLOW), m.start_appl_main⟩ := by
  unfold dispatch
  rw [hcmd, if_neg (by decide), if_neg (by decide), if_pos rfl]

lemma eeLoop_fupd_high : ∀ (n : Nat) (frame : Frame) (v address : Nat)
    (e : Nat → Nat) (i : Nat),
    eeLoop (fupd frame PAGEINDEXHIGH v) address e i n = eeLoop frame address e i n := by
  intro n
  induction n with
  | zero => intros; rfl
  | succ n ih =>
    intro frame v address e i
    simp only [eeLoop]
    have hb : frameByte (fupd frame PAGEINDEXHIGH v) (DATAPAGESTART + i)
        = frameByte frame (DATAPAGESTART + i) := by
      unfold frameByte
      rw [fupd_ne frame PAGEINDEXHIGH v (DATAPAGESTART + i)
        (by simp only [DATAPAGESTART, PAGEINDEXHIGH]; omega)]
    rw [hb, ih]

-- ---------------------------------------------------------------------------
-- claim theorems
-- ---------------------------------------------------------------------------

/-- Claim C2: for every PROGCOMMAND frame whose computed 16-bit byte address
is at or above `BOOTLOADER_ADDRESS`, dispatch performs no flash erase or
write: the machine state (all program memory, the EEPROM and the saved
application entry pointer) is returned unchanged and no control transfer
happens. -/
theorem C2_prog_protected (m : MCU) (frame : Frame)
    (hcmd : frameByte frame COMMAND = PROGCOMMAND)
    (haddr : BOOTLOADER_ADDRESS ≤ progAddress frame) :
    dispatch m frame = (m, none) := by
  rw [dispatch_prog_eq m frame hcmd, if_neg (by omega)]

theorem C2_prog_protected_witness :
    dispatch ⟨fun _ => 0, fun _ => 0, 0⟩
        (fun i => if i = 0 then 2 else if i = 2 then 1 else 0) =
      (⟨fun _ => 0, fun _ => 0, 0⟩, none) :=
  C2_prog_protected ⟨fun _ => 0, fun _ => 0, 0⟩
    (fun i => if i = 0 then 2 else if i = 2 then 1 else 0) (by decide) (by decide)

/-- Claim C8: if the boot-request input is released while the dwell counter
is strictly below 3000000, `a_main` immediately takes the
`exitBootloader` path; if the input stays asserted until the counter
reaches 3000000, `a_main` falls through to the command loop. -/
theorem C8_entry_dwell (pressed : Nat) :
    (pressed < 3000000 → bootEntry pressed = EntryDecision.exitToApplication) ∧
    (3000000 ≤ pressed → bootEntry pressed = EntryDecision.commandLoop) := by
  have h := entryLoop_eq pressed 0 (by omega)
  constructor
  · intro hp
    unfold bootEntry
    rw [h, if_pos (by omega)]
  · intro hp
    unfold bootEntry
    rw [h, if_neg (by omega)]

theorem C8_entry_dwell_witness :
    bootEntry 5 = EntryDecision.exitToApplication ∧
    bootEntry 3000000 = EntryDecision.commandLoop :=
  ⟨(C8_entry_dwell 5).1 (by decide), (C8_entry_dwell 3000000).2 (by decide)⟩

/-- Claim C9: `eeprom_write` with an address at or above 512 writes the
value to address 511 (the last valid address) instead; an address below
512 is used as given; in both cases exactly that one cell changes — no
write fails or wraps to a low address. -/
theorem C9_eeprom_clamp (e : Nat → Nat) (address data : Nat) (hd : data < 256) :
    (512 ≤ address → eeprom_write e address data = fupd e 511 data) ∧
    (address < 512 → eeprom_write e address data = fupd e address data) := by
  constructor
  · intro h
    funext a
    unfold eeprom_write fupd
    rw [show (if address < 512 then address else 511) = 511 from if_neg (by omega)]
    by_cases ha : a = 511
    · rw [if_pos ha, if_pos ha]
      omega
    · rw [if_neg ha, if_neg ha]
  · intro h
    funext a
    unfold eeprom_write fupd
    rw [show (if address < 512 then address else 511) = address from if_pos h]
    by_cases ha : a = address
    · rw [if_pos ha, if_pos ha]
      omega
    · rw [if_neg ha, if_neg ha]

theorem C9_eeprom_clamp_witness :
    eeprom_write (fun _ => 0) 600 7 = fupd (fun _ => 0) 511 7 ∧
    eeprom_write (fun _ => 0) 3 7 = fupd (fun _ => 0) 3 7 :=
  ⟨(C9_eeprom_clamp (fun _ => 0) 600 7 (by decide)).1 (by decide),
   (C9_eeprom_clamp (fun _ => 0) 3 7 (by decide)).2 (by decide)⟩

/-- Claim C6: `receiveFrame` returns `true` on every completed reception,
for every input signal, so one iteration of the command loop always ends
in a dispatch and never in the frame-error (fast blink) state. -/
theorem C6_receive_always_true (ps ts : Nat → Bool) (m : MCU) (frame : Frame) :
    (receiveFrame ps ts frame).1 = true ∧
    commandStep m ps ts frame =
      LoopOutcome.dispatched (dispatch m (receiveFrame ps ts frame).2) :=
  ⟨rfl, rfl⟩

/-- Claim C1 counterexample: dispatching a RUNCOMMAND frame on a machine
whose page-0 vector is the bootloader jump `0xCDDF` and whose saved entry
is `X = 0x123` transfers control to `X` but leaves the on-flash page-0
word equal to `0xCDDF`, which differs from `(RJMP + X) % 65536`, the code
word that jumps to `X` — so the page-0 reset vector is not restored. -/
theorem C1_counterexample :
    (dispatch ⟨fun a => if a = 0 then 0xDF else if a = 1 then 0xCD else 0,
        fun _ => 0, 0x123⟩ (fun i => if i = 0 then 3 else 0)).2 = some 0x123 ∧
    pgm_read_word
      (dispatch ⟨fun a => if a = 0 then 0xDF else if a = 1 then 0xCD else 0,
          fun _ => 0, 0x123⟩ (fun i => if i = 0 then 3 else 0)).1.flash 0 = 0xCDDF ∧
    (0xCDDF : Nat) ≠ (RJMP + 0x123) % 65536 := by
  refine ⟨by decide, by decide, by decide⟩

/-- Claim C1 amended: when a RUNCOMMAND frame is dispatched, the saved
application entry `X = start_appl_main` is persisted into the reserved
flash slot at `BOOTLOADER_FUNC_ADDRESS` via the merge-write routine
`pgm_write_block`, and control is then transferred to `X`; the page
holding the slot is the only flash page touched, so the page-0 reset
vector is left unchanged (still jumping into the bootloader). -/
theorem C1_run_persists_entry (m : MCU) (frame : Frame)
    (hcmd : frameByte frame COMMAND = RUNCOMMAND)
    (hsam : m.start_appl_main < 65536) :
    (dispatch m frame).2 = some m.start_appl_main ∧
    pgm_read_word (dispatch m frame).1.flash BOOTLOADER_FUNC_ADDRESS =
      m.start_appl_main ∧
    (∀ a, a < pageStart BOOTLOADER_FUNC_ADDRESS →
      (dispatch m frame).1.flash a = m.flash a) := by
  rw [dispatch_run_eq m frame hcmd]
  refine ⟨rfl, ?_, ?_⟩
  · have h := pgm_write_block_word m.flash BOOTLOADER_FUNC_ADDRESS
      [m.start_appl_main] 2 (by decide) (by decide) 31 (by decide)
    rw [if_pos (by decide)] at h
    rw [show pageStart BOOTLOADER_FUNC_ADDRESS + 2 * 31 = BOOTLOADER_FUNC_ADDRESS
          from by decide,
        show (31 - firstIdx BOOTLOADER_FUNC_ADDRESS : Nat) = 0 from by decide,
        List.getD_cons_zero] at h
    show pgm_read_word
        (pgm_write_block m.flash BOOTLOADER_FUNC_ADDRESS [m.start_appl_main] 2)
        BOOTLOADER_FUNC_ADDRESS = m.start_appl_main
    rw [h]
    omega
  · intro a ha
    exact pgm_write_block_outside m.flash BOOTLOADER_FUNC_ADDRESS
      [m.start_appl_main] 2 a (Or.inl ha)

theorem C1_run_persists_entry_witness :
    (dispatch ⟨fun _ => 7, fun _ => 0, 291⟩ (fun i => if i = 0 then 3 else 0)).2 =
      some 291 ∧
    pgm_read_word
      (dispatch ⟨fun _ => 7, fun _ => 0, 291⟩
        (fun i => if i = 0 then 3 else 0)).1.flash BOOTLOADER_FUNC_ADDRESS = 291 ∧
    (dispatch ⟨fun _ => 7, fun _ => 0, 291⟩
      (fun i => if i = 0 then 3 else 0)).1.flash 0 = 7 := by
  obtain ⟨h1, h2, h3⟩ := C1_run_persists_entry ⟨fun _ => 7, fun _ => 0, 291⟩
    (fun i => if i = 0 then 3 else 0) (by decide) (by decide)
  exact ⟨h1, h2, h3 0 (by decide)⟩

/-- Claim C4: `boot_program_page` on the page containing address 0 decodes
the first payload word as a jump instruction, saves its target `X` as
`start_appl_main`, writes at address 0 the jump instruction targeting the
bootloader entry (`RJMP + BOOTLOADER_ADDRESS / 2`, i.e.
`0xC000 + BOOTLOADER_ADDRESS / 2 - 1`), and writes every other word of
the page exactly as given in the payload. -/
theorem C4_page0_vector_patch (f : Flash) (sam : Nat) (buf : Nat → Nat) (X : Nat)
    (hbuf : ∀ i, buf i < 256) (hX : X < 65536)
    (hw : bufWord buf 0 = (RJMP + X) % 65536) :
    (boot_program_page f sam 0 buf).2 = X ∧
    pgm_read_word (boot_program_page f sam 0 buf).1 0 =
      (RJMP + BOOTLOADER_ADDRESS / 2) % 65536 ∧
    (∀ j, 1 ≤ j → j < 32 →
      pgm_read_word (boot_program_page f sam 0 buf).1 (2 * j) = bufWord buf j) := by
  refine ⟨?_, ?_, ?_⟩
  · rw [boot_program_page_sam, if_pos rfl, hw, show RJMP = 49151 from rfl]
    omega
  · have h := boot_program_page_word f sam 0 buf 0 (by omega)
    rw [show (0 : Nat) + 2 * 0 = 0 from by omega, if_pos ⟨rfl, rfl⟩] at h
    rw [h, show RJMP = 49151 from rfl, show BOOTLOADER_ADDRESS = 7104 from rfl]
  · intro j h1 h2
    have h := boot_program_page_word f sam 0 buf j (by omega)
    rw [show (0 : Nat) + 2 * j = 2 * j from by omega, if_neg (by omega)] at h
    rw [h]
    have hb0 := hbuf (2 * j)
    have hb1 := hbuf (2 * j + 1)
    unfold bufWord
    omega

theorem C4_page0_vector_patch_witness :
    (boot_program_page (fun _ => 0) 0 0
        (fun i => (if i = 0 then 255 else if i = 1 then 192 else 7) % 256)).2 = 256 ∧
    pgm_read_word (boot_program_page (fun _ => 0) 0 0
        (fun i => (if i = 0 then 255 else if i = 1 then 192 else 7) % 256)).1 0 =
      (RJMP + BOOTLOADER_ADDRESS / 2) % 65536 ∧
    pgm_read_word (boot_program_page (fun _ => 0) 0 0
        (fun i => (if i = 0 then 255 else if i = 1 then 192 else 7) % 256)).1 2 =
      bufWord (fun i => (if i = 0 then 255 else if i = 1 then 192 else 7) % 256) 1 := by
  obtain ⟨h1, h2, h3⟩ := C4_page0_vector_patch (fun _ => 0) 0
    (fun i => (if i = 0 then 255 else if i = 1 then 192 else 7) % 256) 256
    (fun i => Nat.mod_lt _ (by decide)) (by decide) (by decide)
  refine ⟨h1, h2, ?_⟩
  have h := h3 1 (by decide) (by decide)
  rw [show (2 * 1 : Nat) = 2 from by norm_num] at h
  exact h

/-- Claim C3: the PROGCOMMAND target address is `SPM_PAGESIZE * pageNumber`
reduced mod 2^16, so some 16-bit page numbers wrap (e.g. 1024): the
product reaches 2^16, the wrapped address lies below
`BOOTLOADER_ADDRESS`, the protection check passes, and the payload is
written to the aliased low page. -/
theorem C3_prog_address_wraps :
    (∀ frame, progAddress frame = SPM_PAGESIZE * progPageNumber frame % 65536) ∧
    (∃ pn, pn < 65536 ∧ 65536 ≤ SPM_PAGESIZE * pn ∧
      SPM_PAGESIZE * pn % 65536 < BOOTLOADER_ADDRESS) ∧
    (∀ (m : MCU) (frame : Frame),
      frameByte frame COMMAND = PROGCOMMAND →
      65536 ≤ SPM_PAGESIZE * progPageNumber frame →
      progAddress frame < BOOTLOADER_ADDRESS →
      ∀ j, j < 32 → ¬(progAddress frame = 0 ∧ j = 0) →
      pgm_read_word (dispatch m frame).1.flash (progAddress frame + 2 * j) =
        bufWord (fun i => frameByte frame (DATAPAGESTART + i)) j) := by
  refine ⟨fun frame => rfl, ⟨1024, by decide, by decide, by decide⟩, ?_⟩
  intro m frame hcmd _ haddr j hj hnz
  rw [dispatch_prog_eq m frame hcmd, if_pos haddr]
  show pgm_read_word (boot_program_page m.flash m.start_appl_main
      (progAddress frame) (fun i => frameByte frame (DATAPAGESTART + i))).1
      (progAddress frame + 2 * j) = _
  rw [boot_program_page_word m.flash m.start_appl_main (progAddress frame)
      (fun i => frameByte frame (DATAPAGESTART + i)) j hj, if_neg hnz]
  have hb0 := frameByte_lt frame (DATAPAGESTART + 2 * j)
  have hb1 := frameByte_lt frame (DATAPAGESTART + (2 * j + 1))
  unfold bufWord
  dsimp only
  omega

theorem C3_prog_address_wraps_witness :
    65536 ≤ SPM_PAGESIZE * progPageNumber
      (fun i => if i = 0 then 2 else if i = 2 then 4 else if i = 9 then 171 else 0) ∧
    progAddress
      (fun i => if i = 0 then 2 else if i = 2 then 4 else if i = 9 then 171 else 0) = 0 ∧
    pgm_read_word
      (dispatch ⟨fun _ => 0, fun _ => 0, 0⟩
        (fun i => if i = 0 then 2 else if i = 2 then 4 else if i = 9 then 171 else 0)).1.flash
      (progAddress
        (fun i => if i = 0 then 2 else if i = 2 then 4 else if i = 9 then 171 else 0) + 2 * 1) =
      bufWord (fun i => frameByte
        (fun i2 => if i2 = 0 then 2 else if i2 = 2 then 4 else if i2 = 9 then 171 else 0)
        (DATAPAGESTART + i)) 1 := by
  refine ⟨by decide, by decide, ?_⟩
  exact (C3_prog_address_wraps).2.2 ⟨fun _ => 0, fun _ => 0, 0⟩
    (fun i => if i = 0 then 2 else if i = 2 then 4 else if i = 9 then 171 else 0)
    (by decide) (by decide) (by decide) 1 (by decide) (by decide)

/-- Claim C5 counterexample: calling `pgm_write_block` with the odd size 1
on an all-zero flash at address 0 with block words `[4369, 8738]`
consumes both 16-bit words: at word offset 1 (byte address 2), the two
bytes of `size` were already exhausted by offset 0, yet the committed
word is the block word 8738 rather than the previous flash word 0 — the
`size -= 2` counter wraps in 16-bit `size_t` arithmetic and never reaches
zero, so the rest of the page is not re-read from flash as the claim
states. -/
theorem C5_counterexample :
    pgm_read_word (pgm_write_block (fun _ => 0) 0 [4369, 8738] 1) 2 = 8738 ∧
    pgm_read_word (fun _ => 0) 2 = 0 := by
  refine ⟨by decide, by decide⟩

/-- Claim C5 amended: for every call of `pgm_write_block` with an even
size below 2^16, each word offset of the page containing `flash_addr` is
committed with the next value from `block` when the offset's address is
at or after `flash_addr` and unread bytes of the declared size remain,
and otherwise with the word previously stored in flash at that offset
(hence those words, and every byte outside the page, are byte-for-byte
unchanged). -/
theorem C5_merge_write_even (f : Flash) (fa : Nat) (block : List Nat)
    (size : Nat) (hdvd : 2 ∣ size) (hlt : size < 65536)
    (hbyte : ∀ a, f a < 256) (hword : ∀ w ∈ block, w < 65536) :
    (∀ j, j < 32 → firstIdx fa ≤ j → j < firstIdx fa + size / 2 →
      pgm_read_word (pgm_write_block f fa block size) (pageStart fa + 2 * j) =
        block.getD (j - firstIdx fa) 0) ∧
    (∀ j, j < 32 → ¬(firstIdx fa ≤ j ∧ j < firstIdx fa + size / 2) →
      pgm_write_block f fa block size (pageStart fa + 2 * j) =
          f (pageStart fa + 2 * j) ∧
      pgm_write_block f fa block size (pageStart fa + 2 * j + 1) =
          f (pageStart fa + 2 * j + 1)) ∧
    (∀ a, a < pageStart fa ∨ pageStart fa + SPM_PAGESIZE ≤ a →
      pgm_write_block f fa block size a = f a) := by
  refine ⟨?_, ?_, ?_⟩
  · intro j hj h1 h2
    rw [pgm_write_block_word f fa block size hdvd hlt j hj, if_pos ⟨h1, h2⟩]
    have hg := getD_lt_of_forall block 65536 (j - firstIdx fa) hword (by omega)
    omega
  · intro j hj hcc
    have h := pgm_write_block_keep f fa block size hdvd hlt j hj hcc
    have hb1 := hbyte (pageStart fa + 2 * j)
    have hb2 := hbyte (pageStart fa + 2 * j + 1)
    exact ⟨by rw [h.1]; omega, by rw [h.2]; omega⟩
  · intro a ha
    exact pgm_write_block_outside f fa block size a ha

theorem C5_merge_write_even_witness :
    pgm_read_word (pgm_write_block (fun _ => 5) 7102 [291] 2) 7102 = 291 ∧
    pgm_write_block (fun _ => 5) 7102 [291] 2 7040 = 5 ∧
    pgm_write_block (fun _ => 5) 7102 [291] 2 0 = 5 := by
  obtain ⟨h1, h2, h3⟩ := C5_merge_write_even (fun _ => 5) 7102 [291] 2
    (by decide) (by decide) (fun a => by norm_num) (by decide)
  refine ⟨?_, ?_, ?_⟩
  · have h := h1 31 (by decide) (by decide) (by decide)
    norm_num [pageStart, firstIdx, SPM_PAGESIZE] at h
    exact h
  · have h := h2 0 (by decide) (by decide)
    norm_num [pageStart, SPM_PAGESIZE] at h
    exact h.1
  · exact h3 0 (by decide)

/-- Claim C7: the bit-recovery phase of `receiveFrame` decodes exactly
`FRAMESIZE * 8` bit cells (the result depends on no sample beyond them);
the bit of cell `n` is 1 exactly when the sample just after the edge
differs from the sample `delayTime` ticks later, and the bits are packed
most-significant-bit first into successive bytes of the frame buffer. -/
theorem C7_bit_recovery (ps ts : Nat → Bool) (frame : Frame) :
    (∀ ps2 ts2, (∀ n, n < FRAMESIZE * 8 → ps n = ps2 n ∧ ts n = ts2 n) →
      receiveFrame ps ts frame = receiveFrame ps2 ts2 frame) ∧
    (∀ j, j < FRAMESIZE → (receiveFrame ps ts frame).2 j = byteMSB ps ts (8 * j)) := by
  constructor
  · intro ps2 ts2 h
    unfold receiveFrame
    rw [rfLoop_congr (FRAMESIZE * 8) ps ts ps2 ts2 frame 0 8 0
      (fun i h1 h2 => h i (by omega))]
  · intro j hj
    have hF : FRAMESIZE = 71 := by
      norm_num [FRAMESIZE, PAGESIZE, SPM_PAGESIZE, DATAPAGESTART]
    have hj2 : j < 71 := by omega
    unfold receiveFrame
    dsimp only
    rw [show FRAMESIZE * 8 = 8 * 71 from by rw [hF],
        rfLoop_run 71 ps ts frame 0 0 j, if_pos (by omega),
        show (0 : Nat) + 8 * (j - 0) = 8 * j from by omega, packRun_eight]

theorem C7_bit_recovery_witness :
    receiveFrame (fun n => decide (n % 2 = 0)) (fun _ => false) (fun _ => 0) =
      receiveFrame
        (fun n => if n < FRAMESIZE * 8 then decide (n % 2 = 0) else true)
        (fun _ => false) (fun _ => 0) ∧
    (receiveFrame (fun n => decide (n % 2 = 0)) (fun _ => false) (fun _ => 0)).2 0 =
      byteMSB (fun n => decide (n % 2 = 0)) (fun _ => false) (8 * 0) :=
  ⟨(C7_bit_recovery (fun n => decide (n % 2 = 0)) (fun _ => false) (fun _ => 0)).1
      (fun n => if n < FRAMESIZE * 8 then decide (n % 2 = 0) else true)
      (fun _ => false)
      (fun n hn => ⟨(if_pos hn).symm, rfl⟩),
   (C7_bit_recovery (fun n => decide (n % 2 = 0)) (fun _ => false) (fun _ => 0)).2
      0 (by decide)⟩

/-- Claim C10: the EEPROMCOMMAND branch computes its base address in 8-bit
arithmetic as `SPM_PAGESIZE * pageIndexLow % 256`, ignoring the high
page-index byte; every address passed to `eeprom_write` is at most 510,
below the 512-byte capacity, so the clamp in `eeprom_write` is never
triggered and each byte lands at exactly its requested address. -/
theorem C10_eeprom_dispatch_low (m : MCU) (frame : Frame)
    (hcmd : frameByte frame COMMAND = EEPROMCOMMAND) :
    (∀ i, i < frameByte frame LENGTHLOW →
      SPM_PAGESIZE * frameByte frame PAGEINDEXLOW % 256 + i ≤ 510) ∧
    ((dispatch m frame).1.eeprom =
      eeLoopD frame (SPM_PAGESIZE * frameByte frame PAGEINDEXLOW % 256) m.eeprom 0
        (frameByte frame LENGTHLOW)) ∧
    (∀ v, dispatch m (fupd frame PAGEINDEXHIGH v) = dispatch m frame) := by
  have hlen := frameByte_lt frame LENGTHLOW
  have haddr : SPM_PAGESIZE * frameByte frame PAGEINDEXLOW % 256 < 256 :=
    Nat.mod_lt _ (by omega)
  refine ⟨?_, ?_, ?_⟩
  · intro i hi
    omega
  · rw [dispatch_eeprom_eq m frame hcmd]
    show eeLoop frame (SPM_PAGESIZE * frameByte frame PAGEINDEXLOW % 256) m.eeprom 0
        (frameByte frame LENGTHLOW) = _
    exact eeLoop_eq_direct (frameByte frame LENGTHLOW) frame
      (SPM_PAGESIZE * frameByte frame PAGEINDEXLOW % 256) m.eeprom 0
      (fun k hk => by omega)
  · intro v
    have hc : frameByte (fupd frame PAGEINDEXHIGH v) COMMAND = EEPROMCOMMAND := by
      unfold frameByte
      rw [fupd_ne frame PAGEINDEXHIGH v COMMAND
        (by simp only [COMMAND, PAGEINDEXHIGH]; omega)]
      exact hcmd
    rw [dispatch_eeprom_eq m (fupd frame PAGEINDEXHIGH v) hc,
      dispatch_eeprom_eq m frame hcmd]
    have h1 : frameByte (fupd frame PAGEINDEXHIGH v) PAGEINDEXLOW =
        frameByte frame PAGEINDEXLOW := by
      unfold frameByte
      rw [fupd_ne frame PAGEINDEXHIGH v PAGEINDEXLOW
        (by simp only [PAGEINDEXLOW, PAGEINDEXHIGH]; omega)]
    have h2 : frameByte (fupd frame PAGEINDEXHIGH v) LENGTHLOW =
        frameByte frame LENGTHLOW := by
      unfold frameByte
      rw [fupd_ne frame PAGEINDEXHIGH v LENGTHLOW
        (by simp only [LENGTHLOW, PAGEINDEXHIGH]; omega)]
    rw [h1, h2, eeLoop_fupd_high]

theorem C10_eeprom_dispatch_low_witness :
    SPM_PAGESIZE * frameByte
        (fun i => if i = 0 then 4 else if i = 1 then 3 else if i = 3 then 2 else 9)
        PAGEINDEXLOW % 256 + 1 ≤ 510 ∧
    (dispatch ⟨fun _ => 0, fun _ => 0, 0⟩
        (fun i => if i = 0 then 4 else if i = 1 then 3 else if i = 3 then 2 else 9)).1.eeprom =
      eeLoopD (fun i => if i = 0 then 4 else if i = 1 then 3 else if i = 3 then 2 else 9)
        (SPM_PAGESIZE * frameByte
          (fun i => if i = 0 then 4 else if i = 1 then 3 else if i = 3 then 2 else 9)
          PAGEINDEXLOW % 256)
        (fun _ => 0) 0
        (frameByte
          (fun i => if i = 0 then 4 else if i = 1 then 3 else if i = 3 then 2 else 9)
          LENGTHLOW) ∧
    dispatch ⟨fun _ => 0, fun _ => 0, 0⟩
        (fupd (fun i => if i = 0 then 4 else if i = 1 then 3 else if i = 3 then 2 else 9)
          PAGEINDEXHIGH 99) =
      dispatch ⟨fun _ => 0, fun _ => 0, 0⟩
        (fun i => if i = 0 then 4 else if i = 1 then 3 else if i = 3 then 2 else 9) := by
  obtain ⟨h1, h2, h3⟩ := C10_eeprom_dispatch_low ⟨fun _ => 0, fun _ => 0, 0⟩
    (fun i => if i = 0 then 4 else if i = 1 then 3 else if i = 3 then 2 else 9)
    (by decide)
  exact ⟨h1 1 (by decide), h2, h3 99⟩

